import Mathlib

/-!
Verification of the rate-limited HTTP request core of the attack-sdk-go
client library (pkg/api/http.go, token-bucket variant — the variant the
specification follows).

Modelling conventions:
* Time is measured in seconds as exact rationals (ℚ).  The Go code stores
  token counts in a float64 and durations in int64 nanoseconds; both are
  idealized here as exact rational arithmetic.
* The limiter wraps golang.org/x/time/rate.Limiter.  That library is not
  part of this repository's sources; its token-bucket state is embedded
  here following its documented semantics as used by the repository:
  a bucket holding `tokens` (at most `burst`), refilled at `rate` tokens
  per second since the last update time.  `Reserve` of one token is OK
  exactly when `1 ≤ burst`; a cancelled reservation restores the token,
  leaving the refill credit for the elapsed time in place.
* Go errors are embedded as the inductive `GoError`; `fmt.Errorf` with a
  `%w` verb becomes the `wrapped` constructor and `errors.Is` becomes
  `errorIs`, which unwraps.
* JSON decoding (`json.Unmarshal`) is embedded abstractly: each call site
  of `ReqBuf` is parameterized by the outcome (`Except String _`) of
  decoding the body into the destination type and into `APIError`.
-/

namespace AttackSDK

/-- `RateLimiter` from pkg/api/http.go: wraps an x/time/rate token bucket
(`tokens`, `rate`, `burst` and the last-update instant `time`) together
with the stored original per-minute limit (`limit`). -/
structure RateLimiter where
  tokens : ℚ
  rate : ℚ
  burst : ℤ
  limit : ℤ
  time : ℚ
deriving DecidableEq, Repr

/-- `NewRateLimiter(requestsPerMinute)`: refill rate `requestsPerMinute/60`
tokens per second, bucket capacity (`burst`) equal to `requestsPerMinute`,
stored `limit` equal to `requestsPerMinute`.  The underlying x/time/rate
bucket reads as full at first use (its zero last-update time lies in the
far past), embedded here as a bucket already full at time 0. -/
def NewRateLimiter (requestsPerMinute : ℤ) : RateLimiter :=
  { tokens := (requestsPerMinute : ℚ)
    rate := (requestsPerMinute : ℚ) / 60
    burst := requestsPerMinute
    limit := requestsPerMinute
    time := 0 }

/-- The bucket's time advance (x/time/rate `advance` as used by the code):
credit `rate` tokens per elapsed second, capped at `burst`. -/
def advance (s : RateLimiter) (now : ℚ) : RateLimiter :=
  { s with
    tokens := min (s.burst : ℚ) (s.tokens + s.rate * (now - s.time))
    time := now }

/-- The bucket's token count as seen at a (future) instant `t`, if no
request is admitted in between: pure refill. -/
def tokensAt (s : RateLimiter) (t : ℚ) : ℚ :=
  min (s.burst : ℚ) (s.tokens + s.rate * (t - s.time))

/-- `(*RateLimiter).IsAllowed` from pkg/api/http.go, with the implicit
`time.Now()` made an explicit argument `now`.  It reserves one token:
if the reservation is not OK (bucket capacity below one) it returns
`(false, 0)` with the state untouched; if the token is available with no
delay it keeps the reservation (consuming the token) and returns
`(true, 0)`; otherwise it cancels the reservation (restoring the token,
with the refill credit for the elapsed time kept) and returns `false`
with the estimated wait `(1 - tokens)/rate`. -/
def IsAllowed (s : RateLimiter) (now : ℚ) : Bool × ℚ × RateLimiter :=
  if s.burst < 1 then (false, 0, s)
  else if 1 ≤ (advance s now).tokens then
    (true, 0, { advance s now with tokens := (advance s now).tokens - 1 })
  else
    (false, (1 - (advance s now).tokens) / s.rate, advance s now)

/-- A sequence of admission probes: run `IsAllowed` at each instant of
`ts` in order, threading the limiter state, and log `(instant, admitted)`
for every probe. -/
def runProbes (s : RateLimiter) : List ℚ → RateLimiter × List (ℚ × Bool)
  | [] => (s, [])
  | t :: ts =>
      let r := IsAllowed s t
      let rest := runProbes r.2.2 ts
      (rest.1, (t, r.1) :: rest.2)

/-- Number of admissions granted at instants inside the closed window
`[a, b]`, read off a probe log. -/
def admittedIn (log : List (ℚ × Bool)) (a b : ℚ) : ℕ :=
  log.countP fun p => p.2 && decide (a ≤ p.1) && decide (p.1 ≤ b)

/-- Modelled from the spec: `construct(requestsPerMinute: positive int)`
of section 4.1, which "fails only on a non-positive input (construction
is invalid for rate ≤ 0)".  This is the specification's words, kept for
comparison against the repository's `NewRateLimiter`, which has no
failure path. -/
def constructSpec (requestsPerMinute : ℤ) : Option RateLimiter :=
  if requestsPerMinute ≤ 0 then none else some (NewRateLimiter requestsPerMinute)

/-- Go `error` values produced by pkg/api/http.go, by identity:
the three package-level sentinels (`ErrApiKeyInvalid`, `ErrNotFound`,
`ErrRateLimited`), an error built by `fmt.Errorf` with a `%w` verb
(`wrapped base msg`), a plain formatted error (`errMsg`), and an error
value returned by `json.Unmarshal` (`jsonError`, carrying its text). -/
inductive GoError where
  | errApiKeyInvalid : GoError
  | errNotFound : GoError
  | errRateLimited : GoError
  | wrapped (base : GoError) (msg : String) : GoError
  | errMsg (msg : String) : GoError
  | jsonError (msg : String) : GoError
deriving DecidableEq, Repr

/-- Go `errors.Is`: identity with the target, or the target found under
the `%w`-wrap chain. -/
def errorIs (e target : GoError) : Bool :=
  (e == target) ||
    (match e with
     | .wrapped base _ => errorIs base target
     | _ => false)

/-- `ErrorItem` from pkg/api/http.go.  (The `More map[string]any` field
carries arbitrary JSON, is never consulted by any operation modelled
here, and is omitted.) -/
structure ErrorItem where
  name : String
  reason : String
deriving DecidableEq, Repr

/-- `APIError` from pkg/api/http.go: the decoded shape of a non-2xx JSON
error body. -/
structure APIError where
  code : ℤ
  detail : String
  title : String
  status : ℤ
  errors : List ErrorItem
deriving DecidableEq, Repr

/-- `(*APIError).GetFirstError` from pkg/api/http.go: the first error
item, or an item named "Unknown" (with zero-valued reason) when the list
is empty. -/
def GetFirstError (a : APIError) : ErrorItem :=
  match a.errors with
  | e :: _ => e
  | [] => { name := "Unknown", reason := "" }

/-- The error text `fmt.Errorf("%v: %v", item.Name, item.Reason)` built
by `ReqBuf` from an APIError's first error item. -/
def fmtFirstError (m : APIError) : String :=
  (GetFirstError m).name ++ ": " ++ (GetFirstError m).reason

/-- The status-code dispatch of `(*HTTPAPI).ReqBuf` from pkg/api/http.go
(the switch on `statusCode` after `Req` returned without error).  The two
`json.Unmarshal` outcomes are abstracted as parameters: `dd` is the
decode of the body into the destination type, `da` the decode of the body
as an `APIError` (each `.error e` carries the text of the decode error). -/
def reqBufDispatch {α : Type} (status : ℤ) (dd : Except String α)
    (da : Except String APIError) : Except GoError α :=
  if status = 200 ∨ status = 201 then
    match dd with
    | .ok v => .ok v
    | .error e => .error (.jsonError e)
  else if status = 400 then
    match da with
    | .error e => .error (.jsonError e)
    | .ok m => .error (.errMsg (fmtFirstError m))
  else if status = 404 then
    match da with
    | .error _ => .error .errNotFound
    | .ok m => .error (.errMsg (fmtFirstError m))
  else if status = 401 then
    match da with
    | .error _ => .error .errApiKeyInvalid
    | .ok m => .error (.errMsg (fmtFirstError m))
  else if status = 429 then
    match da with
    | .error _ => .error .errRateLimited
    | .ok m => .error (.errMsg (fmtFirstError m))
  else
    match da with
    | .error _ => .error (.errMsg ("resource not found" ++ ": " ++ "invalid response content"))
    | .ok m => .error (.errMsg (fmtFirstError m))

/-- `RateInfo` from pkg/api/http.go (Go `int` and `int64` fields are both
embedded as unbounded integers). -/
structure RateInfo where
  limit : ℤ
  remaining : ℤ
  used : ℤ
  reset : ℤ
  retryAfter : ℤ
  resource : String
deriving DecidableEq, Repr

/-- Auxiliary digit-string accumulator for `atoi`. -/
def parseDigitsAux : List Char → ℕ → Option ℕ
  | [], acc => some acc
  | c :: cs, acc =>
      if c.isDigit then parseDigitsAux cs (acc * 10 + (c.toNat - 48)) else none

/-- Go `strconv.Atoi` / `strconv.ParseInt(v, 10, 64)` syntax: an optional
leading sign followed by one or more decimal digits; `none` on a syntax
error (Go then returns the value 0, which the call sites keep).  The
64-bit range clamp of Go's out-of-range case is idealized away: values
are unbounded integers. -/
def atoi (s : String) : Option ℤ :=
  match s.data with
  | [] => none
  | '+' :: cs => if cs = [] then none else (parseDigitsAux cs 0).map (fun n => (n : ℤ))
  | '-' :: cs => if cs = [] then none else (parseDigitsAux cs 0).map (fun n => -(n : ℤ))
  | cs => (parseDigitsAux cs 0).map (fun n => (n : ℤ))

/-- Go `http.Header.Get`: the first value stored under the key, or the
empty string when the key is absent (header keys are compared verbatim;
the canonical-form normalization is immaterial for the fixed lower-case
keys the code uses). -/
def headerGet (h : List (String × String)) (k : String) : String :=
  match h.find? (fun p => p.1 == k) with
  | some p => p.2
  | none => ""

/-- `parseRateLimitHeaders` from pkg/api/http.go: start from a zero-valued
`RateInfo`; for each of the six headers, if the header value is non-empty,
store the parsed integer (0 when the parse fails — Go's `Atoi`/`ParseInt`
return value on a syntax error, kept by the `_`-discarding call sites). -/
def parseRateLimitHeaders (h : List (String × String)) : RateInfo :=
  { limit := if headerGet h "x-ratelimit-limit" ≠ "" then
        (atoi (headerGet h "x-ratelimit-limit")).getD 0 else 0
    remaining := if headerGet h "x-ratelimit-remaining" ≠ "" then
        (atoi (headerGet h "x-ratelimit-remaining")).getD 0 else 0
    used := if headerGet h "x-ratelimit-used" ≠ "" then
        (atoi (headerGet h "x-ratelimit-used")).getD 0 else 0
    reset := if headerGet h "x-ratelimit-reset" ≠ "" then
        (atoi (headerGet h "x-ratelimit-reset")).getD 0 else 0
    retryAfter := if headerGet h "x-ratelimit-retry-after" ≠ "" then
        (atoi (headerGet h "x-ratelimit-retry-after")).getD 0 else 0
    resource := if headerGet h "x-ratelimit-resource" ≠ "" then
        headerGet h "x-ratelimit-resource" else "" }

/-- The text `fmt.Errorf("%w: retry after %.1f seconds", ErrRateLimited, d)`
appends after the wrapped sentinel, carrying a duration in seconds. -/
def fmtRetryAfterQ (d : ℚ) : String :=
  "retry after " ++ toString d ++ " seconds"

/-- The text `fmt.Errorf("%w: retry after %d seconds", ErrRateLimited, n)`
appends after the wrapped sentinel, carrying the server's retry-after. -/
def fmtRetryAfterZ (n : ℤ) : String :=
  "retry after " ++ toString n ++ " seconds"

/-- Result of `reqBase`'s HTTP-429 handling: the client's limiter after
the feedback, the body handed to the caller, and the returned error. -/
structure Resp429Result where
  newLimiter : RateLimiter
  body : Option String
  err : GoError
deriving Repr

/-- The 429 branch of `(*HTTPAPI).reqBase` from pkg/api/http.go: replace
the client's limiter by `NewRateLimiter(rateInfo.Limit)` when the
advertised limit is positive and differs from the stored limit; return a
nil body and a rate-limit error, wrapping the server's retry-after when
that header value is positive. -/
def handle429 (rl : RateLimiter) (info : RateInfo) : Resp429Result :=
  { newLimiter :=
      if 0 < info.limit ∧ info.limit ≠ rl.limit then NewRateLimiter info.limit else rl
    body := none
    err :=
      if 0 < info.retryAfter then
        .wrapped .errRateLimited (fmtRetryAfterZ info.retryAfter)
      else .errRateLimited }

/-- Modelled from the spec: `awaitAdmission(ctx, maxWait)` of section 4.1
stands in for `rate.Limiter.Wait` under a `maxWait` timeout
(`WaitMaxDuration` wraps a library function whose source is not part of
this repository): it "blocks the caller until either capacity is
available or maxWait … elapses first; returns a deadline-exceeded …
error in the latter case, nil otherwise, and only returns nil after
actually consuming one unit of capacity".  Here: `some (t, s)` when the
wait for a token ends at instant `t` within the bound, with `s` the state
after consuming it; `none` for the deadline-exceeded error. -/
def awaitAdmission (s : RateLimiter) (now maxWait : ℚ) : Option (ℚ × RateLimiter) :=
  if s.burst < 1 then none
  else
    let d := if 1 ≤ (advance s now).tokens then 0
             else (1 - (advance s now).tokens) / s.rate
    if d ≤ maxWait then
      some (now + d,
        { advance s (now + d) with tokens := (advance s (now + d)).tokens - 1 })
    else none

/-- Outcome of `reqBase`'s local-admission phase: either the request
proceeds to the HTTP send at `sendTime` with limiter state `s`, or the
call fails (no HTTP request is sent) with the returned error. -/
inductive AdmissionOutcome where
  | proceed (sendTime : ℚ) (s : RateLimiter) : AdmissionOutcome
  | fail (e : GoError) : AdmissionOutcome
deriving DecidableEq, Repr

/-- The local-admission phase of `(*HTTPAPI).reqBase` from pkg/api/http.go
(everything before the HTTP request is built), with `time.Now()` made the
explicit argument `now`: probe `IsAllowed`; when denied with wait at most
5 seconds, sleep that long and proceed; when denied with a longer wait,
await admission bounded by 5 seconds, and on its deadline-exceeded
failure return the rate-limited error carrying the original estimated
wait. -/
def reqBaseAdmission (s : RateLimiter) (now : ℚ) : AdmissionOutcome :=
  match IsAllowed s now with
  | (true, _, s1) => .proceed now s1
  | (false, waitTime, s1) =>
      if waitTime ≤ 5 then .proceed (now + waitTime) s1
      else
        match awaitAdmission s1 now 5 with
        | some (t, s2) => .proceed t s2
        | none => .fail (.wrapped .errRateLimited (fmtRetryAfterQ waitTime))

/-- A capacity-2 limiter, as in the C1 counterexample run. -/
def limiterTwo : RateLimiter := NewRateLimiter 2

/-- A capacity-1 limiter drained by one admitted probe at time 0:
`IsAllowed` at time 0 admits and leaves zero tokens. -/
def drainedOne : RateLimiter := (IsAllowed (NewRateLimiter 1) 0).2.2

/-- A capacity-60 bucket (refill one token per second) with zero tokens at
time 0 — a concrete exhausted state whose next-token wait is 1 second. -/
def drainedSixty : RateLimiter :=
  { tokens := 0, rate := 1, burst := 60, limit := 60, time := 0 }

/-! ## Helper lemmas -/

theorem errorIs_self (e : GoError) : errorIs e e = true := by
  unfold errorIs
  simp

theorem errorIs_wrapped_of_base (b t : GoError) (m : String)
    (h : errorIs b t = true) : errorIs (.wrapped b m) t = true := by
  unfold errorIs
  simp [h]

/-! ## Claims about the response decoder -/

/-- Claim C2: ReqBuf's status-code dispatch is total and exactly matches
the spec's table: 200/201 decode the body into the destination (decode
failure a hard error); 400, 401, 404, 429 and every other status decode
the body as an APIError and return "name: reason" of its first error item
(name "Unknown" when there are no items); on APIError-decode failure,
401 yields the invalid-credential sentinel, 404 the not-found sentinel,
429 the rate-limited sentinel, and statuses outside the table a generic
not-found/invalid-response error; the three sentinels are pairwise
distinguishable by identity. -/
theorem C2_dispatch_matches_table {α : Type} (status : ℤ)
    (dd : Except String α) (da : Except String APIError) :
    ((status = 200 ∨ status = 201) →
      (∀ v, dd = .ok v → reqBufDispatch status dd da = .ok v) ∧
      (∀ e, dd = .error e → reqBufDispatch status dd da = .error (.jsonError e))) ∧
    (¬(status = 200 ∨ status = 201) →
      ∀ m, da = .ok m →
        reqBufDispatch status dd da = .error (.errMsg (fmtFirstError m))) ∧
    (∀ m, m.errors = [] → GetFirstError m = { name := "Unknown", reason := "" }) ∧
    (∀ e, da = .error e →
      (status = 401 → reqBufDispatch status dd da = .error .errApiKeyInvalid) ∧
      (status = 404 → reqBufDispatch status dd da = .error .errNotFound) ∧
      (status = 429 → reqBufDispatch status dd da = .error .errRateLimited) ∧
      (status ≠ 200 → status ≠ 201 → status ≠ 400 → status ≠ 401 → status ≠ 404 →
        status ≠ 429 →
        reqBufDispatch status dd da =
          .error (.errMsg ("resource not found" ++ ": " ++ "invalid response content")))) ∧
    (GoError.errApiKeyInvalid ≠ GoError.errNotFound ∧
      GoError.errApiKeyInvalid ≠ GoError.errRateLimited ∧
      GoError.errNotFound ≠ GoError.errRateLimited) := by
  refine ⟨fun h => ⟨fun v hv => ?_, fun e he => ?_⟩,
    fun h m hm => ?_, fun m hm => ?_, fun e he => ⟨fun h4 => ?_, fun h4 => ?_, fun h4 => ?_,
      fun n200 n201 n400 n401 n404 n429 => ?_⟩, by decide⟩
  · subst hv; simp [reqBufDispatch, if_pos h]
  · subst he; simp [reqBufDispatch, if_pos h]
  · subst hm
    unfold reqBufDispatch
    rw [if_neg h]
    split_ifs <;> rfl
  · simp [GetFirstError, hm]
  · subst he h4; rfl
  · subst he h4; rfl
  · subst he h4; rfl
  · subst he
    simp [reqBufDispatch, n200, n201, n400, n401, n404, n429]

/-- Claim C2 witness: the dispatch equations instantiated concretely —
status 404 with an undecodable body yields the canonical not-found
sentinel. -/
theorem C2_dispatch_matches_table_witness :
    reqBufDispatch (α := APIError) 404 (.error "bad json") (.error "bad json") =
      .error .errNotFound := by
  exact (((C2_dispatch_matches_table (α := APIError) 404 (.error "bad json")
    (.error "bad json")).2.2.2.1 "bad json" rfl).2.1) rfl

/-- Claim C6: a success value is produced only for status 200 or 201 with
a successful decode into the destination; a 200/201 body that fails to
decode is a hard error, and every other status yields an error, never a
partially-populated success value. -/
theorem C6_success_only_2xx {α : Type} (status : ℤ) (dd : Except String α)
    (da : Except String APIError) :
    (∀ v, reqBufDispatch status dd da = .ok v → (status = 200 ∨ status = 201) ∧ dd = .ok v) ∧
    ((status = 200 ∨ status = 201) → ∀ e, dd = .error e →
      reqBufDispatch status dd da = .error (.jsonError e)) ∧
    (¬(status = 200 ∨ status = 201) → ∃ ge, reqBufDispatch status dd da = .error ge) := by
  refine ⟨fun v hv => ?_, fun h e he => ?_, fun h => ?_⟩
  · unfold reqBufDispatch at hv
    split_ifs at hv with h1 h2 h3 h4 h5
    · cases dd with
      | ok w => exact ⟨h1, by simpa using hv⟩
      | error e => simp at hv
    all_goals cases da <;> simp at hv
  · subst he; simp [reqBufDispatch, if_pos h]
  · unfold reqBufDispatch
    rw [if_neg h]
    split_ifs <;> cases da <;> exact ⟨_, rfl⟩

/-- Claim C6 witness: a 200 response whose body fails to decode is a hard
error, never a success. -/
theorem C6_success_only_2xx_witness :
    reqBufDispatch (α := APIError) 200 (.error "truncated") (.ok ⟨0, "", "", 0, []⟩) =
      .error (.jsonError "truncated") := by
  exact (C6_success_only_2xx (α := APIError) 200 (.error "truncated")
    (.ok ⟨0, "", "", 0, []⟩)).2.1 (Or.inl rfl) "truncated" rfl

/-- Claim C10: for a status-400 response whose body cannot be decoded as
an APIError, ReqBuf returns the raw JSON decode error itself — unlike
401, 404 and 429, where the same decode failure maps to a canonical
sentinel; there is no canonical fallback error for status 400. -/
theorem C10_status400_raw_decode_error {α : Type} (dd : Except String α) (e : String) :
    reqBufDispatch (α := α) 400 dd (.error e) = .error (.jsonError e) ∧
    reqBufDispatch (α := α) 401 dd (.error e) = .error .errApiKeyInvalid ∧
    reqBufDispatch (α := α) 404 dd (.error e) = .error .errNotFound ∧
    reqBufDispatch (α := α) 429 dd (.error e) = .error .errRateLimited ∧
    GoError.jsonError e ≠ .errApiKeyInvalid ∧
    GoError.jsonError e ≠ .errNotFound ∧
    GoError.jsonError e ≠ .errRateLimited := by
  refine ⟨rfl, rfl, rfl, rfl, ?_, ?_, ?_⟩ <;> intro h <;> cases h

/-! ## Claims about rate-limit header parsing and 429 handling -/

theorem headerField_zero_of_none {v : String} (h : atoi v = none) :
    (if v ≠ "" then (atoi v).getD 0 else 0) = 0 := by
  split_ifs <;> simp [h]

theorem headerField_val_of_some {v : String} {n : ℤ} (h : atoi v = some n) :
    (if v ≠ "" then (atoi v).getD 0 else 0) = n := by
  have hv : v ≠ "" := by
    rintro rfl
    rw [show atoi "" = none from rfl] at h
    cases h
  simp [hv, h]

/-- Claim C8: parseRateLimitHeaders is total over arbitrary headers; each
of the six x-ratelimit headers is optional and parsed best-effort: an
absent (empty) or malformed (unparseable-integer) value yields the zero
value of the corresponding RateInfo field, a well-formed value is stored,
and no header content makes the function fail (it is a total function
into RateInfo). -/
theorem C8_headers_best_effort (h : List (String × String)) :
    (headerGet h "x-ratelimit-limit" = "" → (parseRateLimitHeaders h).limit = 0) ∧
    (atoi (headerGet h "x-ratelimit-limit") = none → (parseRateLimitHeaders h).limit = 0) ∧
    (∀ n, atoi (headerGet h "x-ratelimit-limit") = some n →
      (parseRateLimitHeaders h).limit = n) ∧
    (headerGet h "x-ratelimit-remaining" = "" → (parseRateLimitHeaders h).remaining = 0) ∧
    (atoi (headerGet h "x-ratelimit-remaining") = none →
      (parseRateLimitHeaders h).remaining = 0) ∧
    (∀ n, atoi (headerGet h "x-ratelimit-remaining") = some n →
      (parseRateLimitHeaders h).remaining = n) ∧
    (headerGet h "x-ratelimit-used" = "" → (parseRateLimitHeaders h).used = 0) ∧
    (atoi (headerGet h "x-ratelimit-used") = none → (parseRateLimitHeaders h).used = 0) ∧
    (∀ n, atoi (headerGet h "x-ratelimit-used") = some n →
      (parseRateLimitHeaders h).used = n) ∧
    (headerGet h "x-ratelimit-reset" = "" → (parseRateLimitHeaders h).reset = 0) ∧
    (atoi (headerGet h "x-ratelimit-reset") = none → (parseRateLimitHeaders h).reset = 0) ∧
    (∀ n, atoi (headerGet h "x-ratelimit-reset") = some n →
      (parseRateLimitHeaders h).reset = n) ∧
    (headerGet h "x-ratelimit-retry-after" = "" →
      (parseRateLimitHeaders h).retryAfter = 0) ∧
    (atoi (headerGet h "x-ratelimit-retry-after") = none →
      (parseRateLimitHeaders h).retryAfter = 0) ∧
    (∀ n, atoi (headerGet h "x-ratelimit-retry-after") = some n →
      (parseRateLimitHeaders h).retryAfter = n) ∧
    (headerGet h "x-ratelimit-resource" = "" → (parseRateLimitHeaders h).resource = "") ∧
    (headerGet h "x-ratelimit-resource" ≠ "" →
      (parseRateLimitHeaders h).resource = headerGet h "x-ratelimit-resource") := by
  refine ⟨fun hv => ?_, fun hv => headerField_zero_of_none hv,
    fun n hv => headerField_val_of_some hv,
    fun hv => ?_, fun hv => headerField_zero_of_none hv,
    fun n hv => headerField_val_of_some hv,
    fun hv => ?_, fun hv => headerField_zero_of_none hv,
    fun n hv => headerField_val_of_some hv,
    fun hv => ?_, fun hv => headerField_zero_of_none hv,
    fun n hv => headerField_val_of_some hv,
    fun hv => ?_, fun hv => headerField_zero_of_none hv,
    fun n hv => headerField_val_of_some hv,
    fun hv => ?_, fun hv => ?_⟩ <;>
  simp [parseRateLimitHeaders, hv]

/-- Claim C8 witness: a concrete header set with one absent header, one
malformed header and one well-formed header. -/
theorem C8_headers_best_effort_witness :
    (parseRateLimitHeaders [("x-ratelimit-limit", "50"), ("x-ratelimit-used", "abc")]).limit
        = 50 ∧
    (parseRateLimitHeaders [("x-ratelimit-limit", "50"), ("x-ratelimit-used", "abc")]).used
        = 0 ∧
    (parseRateLimitHeaders
        [("x-ratelimit-limit", "50"), ("x-ratelimit-used", "abc")]).remaining = 0 := by
  refine ⟨(C8_headers_best_effort _).2.2.1 50 ?_, (C8_headers_best_effort _).2.2.2.2.2.2.2.1 ?_,
    (C8_headers_best_effort _).2.2.2.1 ?_⟩ <;> rfl

/-- Claim C5: on an HTTP 429 response, the client's limiter is replaced by
a freshly constructed limiter of the advertised capacity exactly when
that capacity is positive and differs from the current stored limit (so a
positive capacity stays positive), and the call returns a rate-limited
error — wrapping the server's retry-after when positive — with a nil
body; with the default capacity-100 limiter and header
x-ratelimit-limit: 50, the resulting exposed capacity is 50. -/
theorem C5_handle429 (rl : RateLimiter) (info : RateInfo) :
    ((handle429 rl info).newLimiter ≠ rl ↔ 0 < info.limit ∧ info.limit ≠ rl.limit) ∧
    (0 < info.limit ∧ info.limit ≠ rl.limit →
      (handle429 rl info).newLimiter = NewRateLimiter info.limit) ∧
    (info.limit ≤ 0 → (handle429 rl info).newLimiter = rl) ∧
    (0 < rl.limit → 0 < (handle429 rl info).newLimiter.limit) ∧
    errorIs (handle429 rl info).err .errRateLimited = true ∧
    (0 < info.retryAfter →
      (handle429 rl info).err = .wrapped .errRateLimited (fmtRetryAfterZ info.retryAfter)) ∧
    (handle429 rl info).body = none ∧
    (handle429 (NewRateLimiter 100)
      { limit := 50, remaining := 0, used := 0, reset := 0, retryAfter := 0,
        resource := "" }).newLimiter.limit = 50 := by
  by_cases hc : 0 < info.limit ∧ info.limit ≠ rl.limit
  · refine ⟨?_, fun _ => ?_, fun hz => ?_, fun hpos => ?_, ?_, fun hr => ?_, rfl, rfl⟩
    · simp only [handle429, if_pos hc]
      constructor
      · intro _; exact hc
      · intro _ he
        exact hc.2 (congrArg RateLimiter.limit he)
    · simp [handle429, hc]
    · exact absurd hc.1 (by omega)
    · simp [handle429, hc, NewRateLimiter]
    · by_cases hr : 0 < info.retryAfter
      · simp only [handle429, if_pos hr]
        exact errorIs_wrapped_of_base _ _ _ (errorIs_self _)
      · simp only [handle429, if_neg hr]
        exact errorIs_self _
    · simp [handle429, hr]
  · refine ⟨?_, fun hcc => absurd hcc hc, fun _ => ?_, fun hpos => ?_, ?_, fun hr => ?_,
      rfl, rfl⟩
    · simp [handle429, hc]
    · simp [handle429, hc]
    · simpa [handle429, hc] using hpos
    · by_cases hr : 0 < info.retryAfter
      · simp only [handle429, if_pos hr]
        exact errorIs_wrapped_of_base _ _ _ (errorIs_self _)
      · simp only [handle429, if_neg hr]
        exact errorIs_self _
    · simp [handle429, hr]

/-- Claim C5 witness: the mocked scenario — a capacity-100 limiter and a
429 with advertised limit 50 and retry-after 7. -/
theorem C5_handle429_witness :
    (handle429 (NewRateLimiter 100)
      { limit := 50, remaining := 2, used := 98, reset := 0, retryAfter := 7,
        resource := "api" }).newLimiter = NewRateLimiter 50 ∧
    (handle429 (NewRateLimiter 100)
      { limit := 50, remaining := 2, used := 98, reset := 0, retryAfter := 7,
        resource := "api" }).err = .wrapped .errRateLimited (fmtRetryAfterZ 7) := by
  constructor
  · exact (C5_handle429 (NewRateLimiter 100) _).2.1 (by exact ⟨by norm_num, by decide⟩)
  · exact (C5_handle429 (NewRateLimiter 100) _).2.2.2.2.2.1 (by norm_num)

/-! ## Claims about limiter construction -/

/-- Claim C7 counterexample: the specification's construct operation
"fails only on a non-positive input", but the code's NewRateLimiter has
no failure path: at the non-positive input 0 it succeeds and returns a
limiter (with zero rate, capacity and stored limit), where the
spec-modelled construct fails. -/
theorem C7_counterexample :
    NewRateLimiter 0 = { tokens := 0, rate := 0, burst := 0, limit := 0, time := 0 } ∧
    constructSpec 0 = none := by
  constructor
  · simp [NewRateLimiter]
  · rfl

/-- Claim C7 amended: NewRateLimiter(requestsPerMinute) converts the
per-minute budget into a refill rate of requestsPerMinute/60 tokens per
second and sets the bucket capacity (and stored limit) equal to
requestsPerMinute, with a full burst available up front; construction
never fails — for a non-positive input it returns a limiter that admits
nothing (every probe is denied with zero wait and unchanged state). -/
theorem C7_construction (n : ℤ) :
    (NewRateLimiter n).rate = (n : ℚ) / 60 ∧
    (NewRateLimiter n).burst = n ∧
    (NewRateLimiter n).limit = n ∧
    (NewRateLimiter n).tokens = ((NewRateLimiter n).burst : ℚ) ∧
    (n ≤ 0 → ∀ now, IsAllowed (NewRateLimiter n) now = (false, 0, NewRateLimiter n)) := by
  refine ⟨rfl, rfl, rfl, rfl, fun hn now => ?_⟩
  have hb : (NewRateLimiter n).burst < 1 := by
    simp only [NewRateLimiter]
    omega
  simp [IsAllowed, hb]

/-- Claim C7 witness: at the non-positive capacity -3, every probe is
denied with a zero wait and the state untouched. -/
theorem C7_construction_witness :
    IsAllowed (NewRateLimiter (-3)) 7 = (false, 0, NewRateLimiter (-3)) :=
  (C7_construction (-3)).2.2.2.2 (by decide) 7

/-! ## Token-bucket step lemmas -/

theorem isAllowed_eq_deny_low (s : RateLimiter) (now : ℚ) (h : s.burst < 1) :
    IsAllowed s now = (false, 0, s) := by
  simp [IsAllowed, h]

theorem isAllowed_eq_grant (s : RateLimiter) (now : ℚ) (h1 : ¬s.burst < 1)
    (h2 : 1 ≤ (advance s now).tokens) :
    IsAllowed s now
      = (true, 0, { advance s now with tokens := (advance s now).tokens - 1 }) := by
  simp [IsAllowed, h1, h2]

theorem isAllowed_eq_deny (s : RateLimiter) (now : ℚ) (h1 : ¬s.burst < 1)
    (h2 : ¬1 ≤ (advance s now).tokens) :
    IsAllowed s now
      = (false, (1 - (advance s now).tokens) / s.rate, advance s now) := by
  simp [IsAllowed, h1, h2]

theorem advance_advance_self (s : RateLimiter) (now : ℚ) :
    advance (advance s now) now = advance s now := by
  simp only [advance, RateLimiter.mk.injEq, sub_self, mul_zero, add_zero, and_true]
  exact min_eq_right (min_le_left _ _)

/-- Refill-only evolution is unchanged by an intermediate `advance`: the
bucket's view of any future instant is the same before and after the
bookkeeping update. -/
theorem tokensAt_advance (s : RateLimiter) (now t : ℚ) (hr : 0 ≤ s.rate)
    (_h1 : s.time ≤ now) (h2 : now ≤ t) :
    tokensAt (advance s now) t = tokensAt s t := by
  have hsplit : s.tokens + s.rate * (t - s.time)
      = s.tokens + s.rate * (now - s.time) + s.rate * (t - now) := by ring
  have h3 : 0 ≤ s.rate * (t - now) := mul_nonneg hr (by linarith)
  simp only [tokensAt, advance]
  rcases le_or_lt (s.tokens + s.rate * (now - s.time)) ((s.burst : ℚ)) with h | h
  · rw [min_eq_right h, hsplit]
  · rw [min_eq_left h.le, min_eq_left (by linarith),
      min_eq_left (by rw [hsplit]; linarith)]

/-- A denied probe leaves the bucket's refill-only future unchanged: no
capacity was consumed. -/
theorem denied_probe_frame (s : RateLimiter) (now d : ℚ) (s' : RateLimiter)
    (hr : 0 ≤ s.rate) (ht : s.time ≤ now)
    (hden : IsAllowed s now = (false, d, s')) :
    ∀ t, now ≤ t → tokensAt s' t = tokensAt s t := by
  intro t htt
  by_cases hb1 : s.burst < 1
  · rw [isAllowed_eq_deny_low s now hb1] at hden
    simp only [Prod.mk.injEq, true_and] at hden
    obtain ⟨-, rfl⟩ := hden
    rfl
  · by_cases hadm : 1 ≤ (advance s now).tokens
    · rw [isAllowed_eq_grant s now hb1 hadm] at hden
      simp at hden
    · rw [isAllowed_eq_deny s now hb1 hadm] at hden
      simp only [Prod.mk.injEq, true_and] at hden
      obtain ⟨-, rfl⟩ := hden
      exact tokensAt_advance s now t hr ht htt

/-- Repeating a denied probe at the same instant returns the same denial,
the same wait estimate and the same state. -/
theorem denied_probe_repeat (s : RateLimiter) (now d : ℚ) (s' : RateLimiter)
    (hden : IsAllowed s now = (false, d, s')) :
    IsAllowed s' now = (false, d, s') := by
  by_cases hb1 : s.burst < 1
  · rw [isAllowed_eq_deny_low s now hb1] at hden
    simp only [Prod.mk.injEq, true_and] at hden
    obtain ⟨rfl, rfl⟩ := hden
    exact isAllowed_eq_deny_low s now hb1
  · by_cases hadm : 1 ≤ (advance s now).tokens
    · rw [isAllowed_eq_grant s now hb1 hadm] at hden
      simp at hden
    · rw [isAllowed_eq_deny s now hb1 hadm] at hden
      simp only [Prod.mk.injEq, true_and] at hden
      obtain ⟨rfl, rfl⟩ := hden
      have hb1' : ¬(advance s now).burst < 1 := hb1
      have hadm' : ¬1 ≤ (advance (advance s now) now).tokens := by
        rw [advance_advance_self]; exact hadm
      rw [isAllowed_eq_deny (advance s now) now hb1' hadm', advance_advance_self]
      rfl

/-! ## Claims about probes and the executor's admission phase -/

/-- Claim C3: a denied IsAllowed probe never consumes capacity: the
speculative reservation is released, so the limiter's refill-only view of
every later instant is unchanged (no admission available later is lost),
and repeating the probe at the same instant — no refill time elapsing —
returns the same denial with the same (hence non-decreasing) wait
estimate and the same state. -/
theorem C3_denied_probe_keeps_capacity (s : RateLimiter) (now d : ℚ) (s' : RateLimiter)
    (hr : 0 ≤ s.rate) (ht : s.time ≤ now)
    (hden : IsAllowed s now = (false, d, s')) :
    (∀ t, now ≤ t → tokensAt s' t = tokensAt s t) ∧
    IsAllowed s' now = (false, d, s') :=
  ⟨denied_probe_frame s now d s' hr ht hden, denied_probe_repeat s now d s' hden⟩

/-- Claim C3 witness: the drained capacity-1 limiter denies with a
60-second wait estimate; the probe consumed nothing and repeats
identically. -/
theorem C3_denied_probe_keeps_capacity_witness :
    IsAllowed drainedOne 0 = (false, 60, advance drainedOne 0) ∧
    tokensAt (advance drainedOne 0) 30 = tokensAt drainedOne 30 ∧
    IsAllowed (advance drainedOne 0) 0 = (false, 60, advance drainedOne 0) := by
  have hden : IsAllowed drainedOne 0 = (false, 60, advance drainedOne 0) := by
    norm_num [IsAllowed, advance, drainedOne, NewRateLimiter, min_def]
  have h := C3_denied_probe_keeps_capacity drainedOne 0 60 (advance drainedOne 0)
    (by norm_num [drainedOne, IsAllowed, advance, NewRateLimiter, min_def])
    (by norm_num [drainedOne, IsAllowed, advance, NewRateLimiter, min_def]) hden
  exact ⟨hden, h.1 30 (by norm_num), h.2⟩

/-- Claim C9: on the short-wait path (initial probe denied with estimated
wait at most 5 seconds) the executor sleeps and then proceeds to the HTTP
send without ever consuming limiter capacity for the request: the send
happens at instant now + d with the denial-time state, whose refill-only
view of every later instant equals the original's — the limiter's token
state at send time is what refill alone produces. -/
theorem C9_short_wait_no_consumption (s : RateLimiter) (now d : ℚ) (s' : RateLimiter)
    (hr : 0 ≤ s.rate) (ht : s.time ≤ now)
    (hden : IsAllowed s now = (false, d, s')) (hd : d ≤ 5) :
    reqBaseAdmission s now = .proceed (now + d) s' ∧
    ∀ t, now ≤ t → tokensAt s' t = tokensAt s t := by
  refine ⟨?_, denied_probe_frame s now d s' hr ht hden⟩
  simp only [reqBaseAdmission, hden]
  rw [if_pos hd]

/-- Claim C9 witness: a drained one-token-per-second bucket denies with a
1-second estimate; the executor proceeds at instant 1 and the refill-only
view at instant 2 is unchanged. -/
theorem C9_short_wait_no_consumption_witness :
    reqBaseAdmission drainedSixty 0 = .proceed (0 + 1) (advance drainedSixty 0) ∧
    tokensAt (advance drainedSixty 0) 2 = tokensAt drainedSixty 2 := by
  have hden : IsAllowed drainedSixty 0 = (false, 1, advance drainedSixty 0) := by
    norm_num [IsAllowed, advance, drainedSixty, min_def]
  have h := C9_short_wait_no_consumption drainedSixty 0 1 (advance drainedSixty 0)
    (by norm_num [drainedSixty]) (by norm_num [drainedSixty]) hden (by norm_num)
  exact ⟨h.1, h.2 2 (by norm_num)⟩

/-- Claim C4: when the initial probe is denied with estimated wait d:
if d ≤ 5 seconds the executor sleeps d and proceeds to the send;
otherwise it awaits admission bounded by 5 seconds, and when that bounded
wait times out it returns — without any HTTP send (the fail outcome) —
a rate-limited error wrapping the canonical sentinel and carrying the
original estimated wait d.  The admission phase is a total function, so
it never blocks indefinitely. -/
theorem C4_bounded_admission_wait (s : RateLimiter) (now d : ℚ) (s' : RateLimiter)
    (hden : IsAllowed s now = (false, d, s')) :
    (d ≤ 5 → reqBaseAdmission s now = .proceed (now + d) s') ∧
    (5 < d →
      reqBaseAdmission s now = .fail (.wrapped .errRateLimited (fmtRetryAfterQ d)) ∧
      errorIs (.wrapped .errRateLimited (fmtRetryAfterQ d)) .errRateLimited = true) := by
  refine ⟨fun hd => ?_, fun hd => ⟨?_, errorIs_wrapped_of_base _ _ _ (errorIs_self _)⟩⟩
  · simp only [reqBaseAdmission, hden]
    rw [if_pos hd]
  · by_cases hb1 : s.burst < 1
    · rw [isAllowed_eq_deny_low s now hb1] at hden
      simp only [Prod.mk.injEq, true_and] at hden
      obtain ⟨rfl, rfl⟩ := hden
      exact absurd hd (by norm_num)
    · by_cases hadm : 1 ≤ (advance s now).tokens
      · rw [isAllowed_eq_grant s now hb1 hadm] at hden
        simp at hden
      · rw [isAllowed_eq_deny s now hb1 hadm] at hden
        simp only [Prod.mk.injEq, true_and] at hden
        obtain ⟨rfl, rfl⟩ := hden
        have hden' : IsAllowed s now
            = (false, (1 - (advance s now).tokens) / s.rate, advance s now) :=
          isAllowed_eq_deny s now hb1 hadm
        have hb1' : ¬(advance s now).burst < 1 := hb1
        have hawait : awaitAdmission (advance s now) now 5 = none := by
          have hd' : ¬(1 - (advance s now).tokens) / (advance s now).rate ≤ 5 :=
            not_le.mpr hd
          simp only [awaitAdmission, advance_advance_self]
          rw [if_neg hb1', if_neg hadm, if_neg hd']
        simp only [reqBaseAdmission, hden', hawait]
        rw [if_neg (not_le.mpr hd)]

/-- Claim C4 witness: the drained capacity-1 limiter has a 60-second
estimated wait; the bounded 5-second wait times out and the admission
phase fails with the rate-limited error carrying 60 seconds, never
sending a request. -/
theorem C4_bounded_admission_wait_witness :
    reqBaseAdmission drainedOne 0
        = .fail (.wrapped .errRateLimited (fmtRetryAfterQ 60)) ∧
    errorIs (.wrapped .errRateLimited (fmtRetryAfterQ 60)) .errRateLimited = true := by
  have hden : IsAllowed drainedOne 0 = (false, 60, advance drainedOne 0) := by
    norm_num [IsAllowed, advance, drainedOne, NewRateLimiter, min_def]
  exact (C4_bounded_admission_wait drainedOne 0 60 (advance drainedOne 0) hden).2
    (by norm_num)

/-! ## Counting admissions over a probe run -/

theorem chain_le_relax {x y : ℚ} {l : List ℚ} (h : List.Chain (· ≤ ·) y l)
    (hxy : x ≤ y) : List.Chain (· ≤ ·) x l := by
  cases l with
  | nil => exact List.Chain.nil
  | cons b bs =>
    rw [List.chain_cons] at h ⊢
    exact ⟨le_trans hxy h.1, h.2⟩

theorem chain_le_forall {x : ℚ} {l : List ℚ} (h : List.Chain (· ≤ ·) x l) :
    ∀ y ∈ l, x ≤ y := by
  induction l generalizing x with
  | nil => simp
  | cons b bs ih =>
    rw [List.chain_cons] at h
    intro y hy
    rcases List.mem_cons.mp hy with rfl | hy'
    · exact h.1
    · exact le_trans h.1 (ih h.2 y hy')

theorem runProbes_cons_case (s : RateLimiter) (t : ℚ) (ts : List ℚ)
    (flag : Bool) (q : ℚ) (st : RateLimiter) (h : IsAllowed s t = (flag, q, st)) :
    (runProbes s (t :: ts)).2 = (t, flag) :: (runProbes st ts).2 := by
  simp [runProbes, h]

theorem admittedIn_cons (t : ℚ) (f : Bool) (l : List (ℚ × Bool)) (a b : ℚ) :
    admittedIn ((t, f) :: l) a b
      = admittedIn l a b + (if f = true ∧ a ≤ t ∧ t ≤ b then 1 else 0) := by
  simp only [admittedIn, List.countP_cons]
  congr 1
  by_cases h1 : f = true <;> by_cases h2 : a ≤ t <;> by_cases h3 : t ≤ b <;>
    simp [h1, h2, h3]

theorem advance_rate (s : RateLimiter) (now : ℚ) : (advance s now).rate = s.rate :=
  rfl

theorem advance_burst (s : RateLimiter) (now : ℚ) : (advance s now).burst = s.burst :=
  rfl

theorem advance_time_eq (s : RateLimiter) (now : ℚ) : (advance s now).time = now :=
  rfl

theorem isAllowed_state_time_le (s : RateLimiter) (now : ℚ) (ht : s.time ≤ now) :
    (IsAllowed s now).2.2.time ≤ now := by
  by_cases hb1 : s.burst < 1
  · rw [isAllowed_eq_deny_low s now hb1]
    exact ht
  · by_cases hadm : 1 ≤ (advance s now).tokens
    · rw [isAllowed_eq_grant s now hb1 hadm]
      exact le_refl now
    · rw [isAllowed_eq_deny s now hb1 hadm]
      exact le_refl now

theorem isAllowed_state_rate (s : RateLimiter) (now : ℚ) :
    (IsAllowed s now).2.2.rate = s.rate := by
  by_cases hb1 : s.burst < 1
  · rw [isAllowed_eq_deny_low s now hb1]
  · by_cases hadm : 1 ≤ (advance s now).tokens
    · rw [isAllowed_eq_grant s now hb1 hadm]
      rfl
    · rw [isAllowed_eq_deny s now hb1 hadm]
      rfl

theorem isAllowed_state_burst (s : RateLimiter) (now : ℚ) :
    (IsAllowed s now).2.2.burst = s.burst := by
  by_cases hb1 : s.burst < 1
  · rw [isAllowed_eq_deny_low s now hb1]
  · by_cases hadm : 1 ≤ (advance s now).tokens
    · rw [isAllowed_eq_grant s now hb1 hadm]
      rfl
    · rw [isAllowed_eq_deny s now hb1 hadm]
      rfl

theorem advance_tokens_le (s : RateLimiter) (now : ℚ) :
    (advance s now).tokens ≤ s.tokens + s.rate * (now - s.time) :=
  min_le_right _ _

theorem advance_tokens_le_burst (s : RateLimiter) (now : ℚ) :
    (advance s now).tokens ≤ (s.burst : ℚ) :=
  min_le_left _ _

theorem advance_tokens_nonneg (s : RateLimiter) (now : ℚ) (hr : 0 ≤ s.rate)
    (h0 : 0 ≤ s.tokens) (ht : s.time ≤ now) (hb : 0 ≤ (s.burst : ℚ)) :
    0 ≤ (advance s now).tokens :=
  le_min hb (by nlinarith [mul_nonneg hr (sub_nonneg.mpr ht)])

theorem isAllowed_state_tokens_nonneg (s : RateLimiter) (now : ℚ) (hr : 0 ≤ s.rate)
    (h0 : 0 ≤ s.tokens) (ht : s.time ≤ now) :
    0 ≤ (IsAllowed s now).2.2.tokens := by
  by_cases hb1 : s.burst < 1
  · rw [isAllowed_eq_deny_low s now hb1]
    exact h0
  · have hb : 0 ≤ (s.burst : ℚ) := by
      have : (1 : ℤ) ≤ s.burst := by omega
      exact_mod_cast le_trans (by norm_num) this
    by_cases hadm : 1 ≤ (advance s now).tokens
    · rw [isAllowed_eq_grant s now hb1 hadm]
      simp only
      linarith
    · rw [isAllowed_eq_deny s now hb1 hadm]
      exact advance_tokens_nonneg s now hr h0 ht hb

theorem isAllowed_state_tokens_le_burst (s : RateLimiter) (now : ℚ)
    (hB : s.tokens ≤ (s.burst : ℚ)) :
    (IsAllowed s now).2.2.tokens ≤ ((IsAllowed s now).2.2.burst : ℚ) := by
  rw [isAllowed_state_burst]
  by_cases hb1 : s.burst < 1
  · rw [isAllowed_eq_deny_low s now hb1]
    exact hB
  · by_cases hadm : 1 ≤ (advance s now).tokens
    · rw [isAllowed_eq_grant s now hb1 hadm]
      simp only
      have := advance_tokens_le_burst s now
      linarith
    · rw [isAllowed_eq_deny s now hb1 hadm]
      exact advance_tokens_le_burst s now

theorem admittedIn_run_zero_of_late : ∀ (ts : List ℚ) (s : RateLimiter) (a b : ℚ),
    (∀ t ∈ ts, b < t) → admittedIn (runProbes s ts).2 a b = 0
  | [], _, _, _, _ => rfl
  | t :: ts, s, a, b, h => by
    obtain ⟨flag, q, st, heq⟩ : ∃ flag q st, IsAllowed s t = (flag, q, st) :=
      ⟨_, _, _, rfl⟩
    rw [runProbes_cons_case s t ts flag q st heq, admittedIn_cons]
    have hbt : b < t := h t (List.mem_cons_self t ts)
    rw [if_neg (fun hc => absurd hc.2.2 (not_le.mpr hbt)),
      admittedIn_run_zero_of_late ts st a b
        (fun y hy => h y (List.mem_cons_of_mem _ hy))]

/-- Token-tracking bound: starting from any state with non-negative
tokens, the admissions granted inside the window along a sorted probe
run are at most the starting tokens plus the refill accrued up to the
window's right edge. -/
theorem admitted_le_tokens (a b : ℚ) : ∀ (ts : List ℚ) (s : RateLimiter),
    0 ≤ s.rate → 0 ≤ s.tokens → s.time ≤ b →
    List.Chain (· ≤ ·) s.time ts → (∀ t ∈ ts, a ≤ t) →
    (admittedIn (runProbes s ts).2 a b : ℚ) ≤ s.tokens + s.rate * (b - s.time)
  | [], s, hr, h0, hb, _, _ => by
    simp only [runProbes, admittedIn, List.countP_nil, Nat.cast_zero]
    nlinarith [mul_nonneg hr (sub_nonneg.mpr hb)]
  | t :: ts, s, hr, h0, hb, hchain, hmem => by
    rw [List.chain_cons] at hchain
    obtain ⟨hst, hch⟩ := hchain
    have hmem' : ∀ y ∈ ts, a ≤ y := fun y hy => hmem y (List.mem_cons_of_mem _ hy)
    have hring : s.rate * (t - s.time) + s.rate * (b - t) = s.rate * (b - s.time) := by
      ring
    by_cases htb : t ≤ b
    · by_cases hb1 : s.burst < 1
      · rw [runProbes_cons_case s t ts false 0 s (isAllowed_eq_deny_low s t hb1),
          admittedIn_cons, if_neg (by simp)]
        have key := admitted_le_tokens a b ts s hr h0 hb (chain_le_relax hch hst) hmem'
        push_cast
        linarith
      · by_cases hadm : 1 ≤ (advance s t).tokens
        · rw [runProbes_cons_case s t ts true 0 _ (isAllowed_eq_grant s t hb1 hadm),
            admittedIn_cons, if_pos ⟨rfl, hmem t (List.mem_cons_self t ts), htb⟩]
          have key := admitted_le_tokens a b ts
            { advance s t with tokens := (advance s t).tokens - 1 }
            hr (by simp only; linarith) htb hch hmem'
          simp only [advance_rate, advance_time_eq] at key ⊢
          have hA := advance_tokens_le s t
          push_cast
          linarith
        · rw [runProbes_cons_case s t ts false _ _ (isAllowed_eq_deny s t hb1 hadm),
            admittedIn_cons, if_neg (by simp)]
          have hb0 : 0 ≤ (s.burst : ℚ) := by
            have : (1 : ℤ) ≤ s.burst := by omega
            exact_mod_cast le_trans (by norm_num) this
          have key := admitted_le_tokens a b ts (advance s t) hr
            (advance_tokens_nonneg s t hr h0 hst hb0) htb hch hmem'
          simp only [advance_rate, advance_time_eq] at key
          have hA := advance_tokens_le s t
          push_cast
          linarith
    · push_neg at htb
      obtain ⟨flag, q, st, heq⟩ : ∃ flag q st, IsAllowed s t = (flag, q, st) :=
        ⟨_, _, _, rfl⟩
      rw [runProbes_cons_case s t ts flag q st heq, admittedIn_cons,
        if_neg (fun hc => absurd hc.2.2 (not_le.mpr htb)),
        admittedIn_run_zero_of_late ts st a b
          (fun y hy => lt_of_lt_of_le htb (chain_le_forall hch y hy))]
      push_cast
      nlinarith [mul_nonneg hr (sub_nonneg.mpr hb)]

/-- Window bound: along any sorted probe run from a state within its
capacity, the admissions granted inside the window `[a, b]` are at most
the capacity plus the refill accrued over the window. -/
theorem admittedIn_window_le (a b : ℚ) (hab : a ≤ b) :
    ∀ (ts : List ℚ) (s : RateLimiter),
    0 ≤ s.rate → 0 ≤ s.tokens → s.tokens ≤ (s.burst : ℚ) →
    List.Chain (· ≤ ·) s.time ts →
    (admittedIn (runProbes s ts).2 a b : ℚ) ≤ (s.burst : ℚ) + s.rate * (b - a)
  | [], s, hr, h0, hB, _ => by
    simp only [runProbes, admittedIn, List.countP_nil, Nat.cast_zero]
    nlinarith [mul_nonneg hr (sub_nonneg.mpr hab)]
  | t :: ts, s, hr, h0, hB, hchain => by
    rw [List.chain_cons] at hchain
    obtain ⟨hst, hch⟩ := hchain
    by_cases hta : t < a
    · obtain ⟨flag, q, st, heq⟩ : ∃ flag q st, IsAllowed s t = (flag, q, st) :=
        ⟨_, _, _, rfl⟩
      rw [runProbes_cons_case s t ts flag q st heq, admittedIn_cons,
        if_neg (fun hc => absurd hc.2.1 (not_le.mpr hta))]
      have h0' : 0 ≤ st.tokens := by
        have := isAllowed_state_tokens_nonneg s t hr h0 hst
        rwa [heq] at this
      have hB' : st.tokens ≤ (st.burst : ℚ) := by
        have := isAllowed_state_tokens_le_burst s t hB
        rwa [heq] at this
      have hr' : 0 ≤ st.rate := by
        have := isAllowed_state_rate s t
        rw [heq] at this
        rwa [this]
      have hch' : List.Chain (· ≤ ·) st.time ts := by
        have htle : st.time ≤ t := by
          have := isAllowed_state_time_le s t hst
          rwa [heq] at this
        exact chain_le_relax hch htle
      have key := admittedIn_window_le a b hab ts st hr' h0' hB' hch'
      have hbeq : st.burst = s.burst := by
        have := isAllowed_state_burst s t
        rwa [heq] at this
      have hreq : st.rate = s.rate := by
        have := isAllowed_state_rate s t
        rwa [heq] at this
      rw [hbeq, hreq] at key
      push_cast
      linarith
    · push_neg at hta
      by_cases htb : t ≤ b
      · have hmem' : ∀ y ∈ ts, a ≤ y := fun y hy =>
          le_trans hta (chain_le_forall hch y hy)
        by_cases hb1 : s.burst < 1
        · rw [runProbes_cons_case s t ts false 0 s (isAllowed_eq_deny_low s t hb1),
            admittedIn_cons, if_neg (by simp)]
          have key := admittedIn_window_le a b hab ts s hr h0 hB
            (chain_le_relax hch hst)
          push_cast
          linarith
        · have hBa := advance_tokens_le_burst s t
          have hwin : s.rate * (b - t) ≤ s.rate * (b - a) :=
            mul_le_mul_of_nonneg_left (by linarith) hr
          by_cases hadm : 1 ≤ (advance s t).tokens
          · rw [runProbes_cons_case s t ts true 0 _ (isAllowed_eq_grant s t hb1 hadm),
              admittedIn_cons, if_pos ⟨rfl, hta, htb⟩]
            have key := admitted_le_tokens a b ts
              { advance s t with tokens := (advance s t).tokens - 1 }
              hr (by simp only; linarith) htb hch hmem'
            simp only [advance_rate, advance_time_eq] at key ⊢
            push_cast
            linarith
          · rw [runProbes_cons_case s t ts false _ _ (isAllowed_eq_deny s t hb1 hadm),
              admittedIn_cons, if_neg (by simp)]
            have hb0 : 0 ≤ (s.burst : ℚ) := by
              have : (1 : ℤ) ≤ s.burst := by omega
              exact_mod_cast le_trans (by norm_num) this
            have key := admitted_le_tokens a b ts (advance s t) hr
              (advance_tokens_nonneg s t hr h0 hst hb0) htb hch hmem'
            simp only [advance_rate, advance_time_eq] at key
            push_cast
            linarith
      · push_neg at htb
        obtain ⟨flag, q, st, heq⟩ : ∃ flag q st, IsAllowed s t = (flag, q, st) :=
          ⟨_, _, _, rfl⟩
        rw [runProbes_cons_case s t ts flag q st heq, admittedIn_cons,
          if_neg (fun hc => absurd hc.2.2 (not_le.mpr htb)),
          admittedIn_run_zero_of_late ts st a b
            (fun y hy => lt_of_lt_of_le htb (chain_le_forall hch y hy))]
        push_cast
        nlinarith [mul_nonneg hr (sub_nonneg.mpr hab)]

/-- Claim C1 counterexample: a limiter of capacity 2 admits 4 requests
inside the single one-minute window [0, 60] — the full burst of 2 at
time 0 plus 2 more from refill at times 30 and 60 — so the claimed
at-most-N bound fails at N = 2 for the probe sequence [0, 0, 30, 60]. -/
theorem C1_counterexample :
    ¬ admittedIn (runProbes (NewRateLimiter 2) [0, 0, 30, 60]).2 0 60 ≤ 2 := by
  have h : admittedIn (runProbes (NewRateLimiter 2) [0, 0, 30, 60]).2 0 60 = 4 := by
    norm_num [runProbes, IsAllowed, advance, NewRateLimiter, admittedIn, min_def,
      List.countP_cons, List.countP_nil]
  omega

/-- Claim C1 amended: for every positive capacity N, a limiter
constructed with NewRateLimiter(N) admits at most 2·N requests in any
trailing 60-second window, over any time-ordered sequence of admission
probes starting at or after construction (an executor-driven wait
consumes its token exactly like an admitted probe at the instant the wait
ends, so such runs cover waits as well): the burst capacity N plus the
window's refill N.  The at-most-N bound of the claim is not achieved by
the token bucket (see the counterexample); 2·N is tight. -/
theorem C1_window_bound (N : ℤ) (hN : 0 < N) (ts : List ℚ)
    (hchain : List.Chain (· ≤ ·) 0 ts) (a : ℚ) :
    (admittedIn (runProbes (NewRateLimiter N) ts).2 a (a + 60) : ℚ) ≤ 2 * N := by
  have hr : (0 : ℚ) ≤ (NewRateLimiter N).rate := by
    have : (0 : ℚ) ≤ (N : ℚ) := by exact_mod_cast hN.le
    simp only [NewRateLimiter]
    positivity
  have h := admittedIn_window_le a (a + 60) (by linarith) ts (NewRateLimiter N) hr
    (by simp only [NewRateLimiter]; exact_mod_cast hN.le)
    (le_refl _) hchain
  have hrate : (NewRateLimiter N).rate * (a + 60 - a) = (N : ℚ) := by
    simp only [NewRateLimiter]
    field_simp
  have hburst : ((NewRateLimiter N).burst : ℚ) = (N : ℚ) := rfl
  rw [hburst, hrate] at h
  linarith

/-- Claim C1 witness: the amended bound instantiated at capacity 1 with a
single probe at time 0 and the window [0, 60]. -/
theorem C1_window_bound_witness :
    (admittedIn (runProbes (NewRateLimiter 1) [0]).2 0 (0 + 60) : ℚ) ≤ 2 * (1 : ℤ) :=
  C1_window_bound 1 (by norm_num) [0]
    (List.Chain.cons (le_refl (0 : ℚ)) List.Chain.nil) 0

end AttackSDK
